import Mathlib

/-!
Verification of the js-ipfs Pin Manager (`PinManager` in
src/core/components/pin/pin-manager.js, provided as src/unnamed/part_003)
against its natural-language specification.

Modelling conventions (shallow embedding):

* A CID is represented by its canonical string (the code keeps pin sets as
  JS `Set`s of canonical strings and converts string/CID/buffer back and
  forth through canonical forms, so the string is a faithful representative).
  The codec that a CID carries (`cid.codec` in the code) determines which
  link-extraction rule applies to the node it names, so we record the codec
  on the node in the DAG map.
* The DAG service `dag.get` is a function `Dag : String → Option DagNode`;
  `none` models a failed fetch (node unavailable / error thrown).
* JS `Set` insertion is modelled by `addToSet` on duplicate-free lists,
  preserving insertion order like a JS `Set`.
* The bounded-concurrency `p-queue` walk of `_walkDag` is determinized as a
  depth-first worklist.  The concurrency bound (300) affects neither the set
  of nodes visited nor which fetches are attempted, so the determinization is
  faithful for the set-valued and error-path properties proved here.
  `p-queue` semantics matter for error handling: a rejection inside a queued
  task rejects only the promise returned by `queue.add` / `queue.addAll`,
  which `_walkDag` ignores; `await queue.onIdle()` resolves as soon as the
  queue drains.  Hence a failed `dag.get` removes that node and its subtree
  from the walk but does not make `_walkDag` itself reject.  We model this by
  having the walk return both the visited list and the list of failed
  fetches, with `some` meaning "the promise returned by `_walkDag` resolves".
  The `Option` is `none` only on fuel exhaustion, which never occurs for
  acyclic DAGs given enough fuel (Merkle DAGs are acyclic).
-/

namespace IpfsPin

/-- The codec recorded in a CID; drives link extraction in `_walkDag`
(`cid.codec === 'dag-pb'` / `'dag-cbor'`, anything else has no links). -/
inductive Codec
  | dagPB
  | dagCBOR
  | other
deriving DecidableEq, Repr

/-- A DAG node as seen by the walk: `pbLinks` are `node.Links.map(l => l.Hash)`
(the dag-pb extraction), `cborLinks` are the CIDs produced by
`dagCborLinks(node)` (the dag-cbor extraction). -/
structure DagNode where
  codec : Codec
  pbLinks : List String
  cborLinks : List String
deriving DecidableEq, Repr

/-- The DAG service `dag.get`: `none` models a failed fetch. -/
def Dag : Type := String → Option DagNode

/-- The children enqueued by `_walkDag` for a fetched node, per the codec of
the CID that named it (src/unnamed/part_003 lines 86-95). -/
def nodeChildren (n : DagNode) : List String :=
  match n.codec with
  | .dagPB => n.pbLinks
  | .dagCBOR => n.cborLinks
  | .other => []

/-- Outcome of a drained walk queue: `visited` is the list of CIDs for which
`onCid` fired (fetch succeeded), in processing order; `failed` is the list of
CIDs whose `dag.get` rejected (the rejection is observed only by the ignored
promise returned by `queue.add`, so the subtree below such a node is skipped). -/
structure WalkOut where
  visited : List String
  failed : List String
deriving DecidableEq, Repr

/-- Worklist determinization of the `p-queue` walk in `_walkDag`
(src/unnamed/part_003 lines 70-105).  Fuel-indexed; `none` = fuel ran out. -/
def walkAux (dag : Dag) : Nat → List String → Option WalkOut
  | _, [] => some (WalkOut.mk [] [])
  | 0, _ :: _ => none
  | fuel + 1, c :: rest =>
    match dag c with
    | none =>
      match walkAux dag fuel rest with
      | none => none
      | some w => some (WalkOut.mk w.visited (c :: w.failed))
    | some n =>
      match walkAux dag fuel (nodeChildren n ++ rest) with
      | none => none
      | some w => some (WalkOut.mk (c :: w.visited) w.failed)

/-- `_walkDag({cid, preload, onCid})`: enqueue the root and await `onIdle`.
A `some` result means the returned promise resolves (which it does even when
individual fetches failed; see the module docstring on `p-queue`). -/
def walkDag (dag : Dag) (fuel : Nat) (cid : String) : Option WalkOut :=
  walkAux dag fuel [cid]

/-- Reachability through the DAG by zero or more link steps, stepping only
through nodes present in the DAG and extracting links per the codec rule. -/
inductive Reaches (dag : Dag) : String → String → Prop
  | refl (c : String) : Reaches dag c c
  | step {a b c : String} {n : DagNode} :
      dag a = some n → b ∈ nodeChildren n → Reaches dag b c → Reaches dag a c

/-- In-memory state of the pin manager: two JS `Set`s of canonical CID
strings, modelled as insertion-ordered duplicate-free lists. -/
structure PinManager where
  directPins : List String
  recursivePins : List String
deriving DecidableEq, Repr

/-- `directKeys()` (modulo the string/CID/buffer identification). -/
def directKeys (pm : PinManager) : List String :=
  pm.directPins

/-- `recursiveKeys()` (modulo the string/CID/buffer identification). -/
def recursiveKeys (pm : PinManager) : List String :=
  pm.recursivePins

/-- `set.add(x)` on a JS `Set` represented as an insertion-ordered list. -/
def addToSet (s : List String) (x : String) : List String :=
  if x ∈ s then s else s ++ [x]

/-- Building a JS `Set` from a list of insertions. -/
def toJsSet (l : List String) : List String :=
  l.foldl addToSet []

/-- `getIndirectKeys` walks every recursive root in turn with a shared
accumulator; this collects the concatenated visit and failure lists of those
walks (src/unnamed/part_003 lines 120-142). -/
def visitRoots (dag : Dag) (fuel : Nat) : List String → Option WalkOut
  | [] => some (WalkOut.mk [] [])
  | r :: rs =>
    match walkDag dag fuel r with
    | none => none
    | some w =>
      match visitRoots dag fuel rs with
      | none => none
      | some v => some (WalkOut.mk (w.visited ++ v.visited) (w.failed ++ v.failed))

/-- `getIndirectKeys({preload})`: for each recursive root, walk its DAG; the
`onCid` callback adds each visited CID to the `indirectKeys` set unless it is
itself a recursive pin ("recursive pins pre-empt indirect pins").  Failed
fetches do not surface (see `p-queue` note): the promise resolves with
whatever was collected. -/
def getIndirectKeys (dag : Dag) (fuel : Nat) (pm : PinManager) : Option (List String) :=
  match visitRoots dag fuel pm.recursivePins with
  | none => none
  | some w =>
    some (toJsSet (w.visited.filter (fun s => decide (s ∉ pm.recursivePins))))

/-- The closed enumeration of pin types. -/
inductive PinType
  | direct
  | recursive
  | indirect
  | all
deriving DecidableEq, Repr

/-- The `reason` field of a `PinInfo`: either one of the fixed pin-type
strings or the CID of a confirming recursive root. -/
inductive PinReason
  | ofType (t : PinType)
  | ofCid (c : String)
deriving DecidableEq, Repr

/-- The record returned by `isPinnedWithType`. -/
structure PinInfo where
  key : String
  pinned : Bool
  reason : Option PinReason
deriving DecidableEq, Repr

/-- Modelled from the spec: the pin-set codec operation
`hasDescendant(recursiveRootKey, candidateCid)` (pin-set.js is not part of
the provided sources).  Per the spec it "tests whether candidateCid is
present within the encoded set rooted at recursiveRootKey", which an
implementer "may instead implement by walking the full DAG's children": the
candidate is matched against the strict descendants of the root (each link
is compared before it is fetched, so a match needs no fetch of the matched
node itself).  Fuel-indexed search over a worklist of links. -/
def searchChildren (dag : Dag) (cand : String) : Nat → List String → Bool
  | _, [] => false
  | 0, _ :: _ => false
  | fuel + 1, c :: rest =>
    if c = cand then true
    else
      match dag c with
      | none => searchChildren dag cand fuel rest
      | some n => searchChildren dag cand fuel (nodeChildren n ++ rest)

/-- Modelled from the spec: `hasDescendant(rootKey, candidate)` — true iff
`candidate` is a strict descendant of the node named `rootKey`. -/
def hasDescendant (dag : Dag) (fuel : Nat) (rootKey : String) (cand : String) : Bool :=
  match dag rootKey with
  | none => false
  | some n => searchChildren dag cand fuel (nodeChildren n)

/-- `isPinnedWithType(multihash, type)` (src/unnamed/part_003 lines 219-286).
The branch structure mirrors the source exactly: recursive membership is
checked first (for types `recursive` and `all`), then direct membership (for
`direct` and `all`), and only then the descendant scan over the recursive
roots.  The scan is determinized to first-match in `recursiveKeys()` order
(`queue.clear()` keeps the earliest completion; completion order is
arbitrary, but every claim proved here is insensitive to which confirming
root wins).  NOTE the faithful rendering of source line 269: the call is
`this.pinset.hasDescendant(childKey, childCID)` where
`childCID = new CID(childKey)` — the candidate passed is the recursive root
itself, and the queried `key` is never consulted by the scan. -/
def isPinnedWithType (dag : Dag) (fuel : Nat) (pm : PinManager)
    (mh : String) (t : PinType) : PinInfo :=
  let key := mh
  if (t = .recursive ∨ t = .all) ∧ key ∈ pm.recursivePins then
    PinInfo.mk key true (some (.ofType .recursive))
  else if t = .recursive then
    PinInfo.mk key false none
  else if (t = .direct ∨ t = .all) ∧ key ∈ pm.directPins then
    PinInfo.mk key true (some (.ofType .direct))
  else if t = .direct then
    PinInfo.mk key false none
  else
    match (recursiveKeys pm).find? (fun childKey => hasDescendant dag fuel childKey childKey) with
    | some childKey => PinInfo.mk key true (some (.ofCid childKey))
    | none => PinInfo.mk key false none

/-- Modelled from the spec: the persisted pin root.  The pin-set codec
(pin-set.js `storeSet`/`loadSet`, not part of the provided sources) is
assumed to round-trip per spec §8.1, so the stored pin-set nodes are
represented by the key lists they encode; the root node links the direct and
the recursive pin-set node. -/
structure PinRoot where
  direct : List String
  recursive : List String
deriving DecidableEq, Repr

/-- The world visible to `flushPins`/`load`: the manager state plus the
datastore value stored under the fixed key `/local/pins` (the pin-root
pointer, resolved through `dag.get` to the root node). -/
structure World where
  pm : PinManager
  pinRoot : Option PinRoot
deriving DecidableEq, Repr

/-- `flushPins()` (src/unnamed/part_003 lines 147-184): store both key sets
through the codec, link them into a root node, and write the root under the
fixed datastore key.  With the codec modelled by `PinRoot`, this records the
two key lists. -/
def flushPins (w : World) : World :=
  World.mk w.pm (some (PinRoot.mk (directKeys w.pm) (recursiveKeys w.pm)))

/-- Failure points of `load()`: the datastore read, the root fetch, and the
pin-set decode (spec §7 `DecodeError`). -/
inductive LoadErr
  | dsGetFailed
  | rootFetchFailed
  | decodeFailed
deriving DecidableEq, Repr

/-- The collaborators `load()` consumes (spec §6): `datastore.has`,
`datastore.get` of the pin-root pointer, `dag.get` of the root node, and the
codec `loadSet`.  Abstract so that every failure point can be exercised. -/
structure Collab where
  dsHas : Bool
  dsGet : Except LoadErr String
  dagGet : String → Except LoadErr PinRoot
  loadSet : PinRoot → PinType → Except LoadErr (List String)

/-- `load()` (src/unnamed/part_003 lines 186-207) as the body of the async
method: if the fixed key is absent, return leaving the sets untouched;
otherwise read the pointer, fetch the root, decode both sub-sets, and only
then rebuild both pin sets.  Any failed step aborts via `Except` before the
rebuild. -/
def load (c : Collab) (pm : PinManager) : Except LoadErr PinManager :=
  if c.dsHas = false then
    Except.ok pm
  else
    match c.dsGet with
    | Except.error e => Except.error e
    | Except.ok mh =>
      match c.dagGet mh with
      | Except.error e => Except.error e
      | Except.ok root =>
        match c.loadSet root .recursive with
        | Except.error e => Except.error e
        | Except.ok rKeys =>
          match c.loadSet root .direct with
          | Except.error e => Except.error e
          | Except.ok dKeys =>
            Except.ok (PinManager.mk (toJsSet dKeys) (toJsSet rKeys))

/-- The caller-visible effect of `await manager.load()`: the method mutates
`this.directPins`/`this.recursivePins` only in its final two statements
(lines 203-204), which run after every await has succeeded, so on an error
the manager keeps its previous sets and the error surfaces to the caller. -/
def loadRun (c : Collab) (pm : PinManager) : PinManager × Option LoadErr :=
  match load c pm with
  | Except.ok pmNew => (pmNew, none)
  | Except.error e => (pm, some e)

/-- Modelled from the spec: `loadSet(rootNode, pinType)` follows the link
named by the pin type and returns the complete flat set (round-trip of
`storeSet`, spec §4.1 and §8.1/8.2). -/
def specLoadSet (root : PinRoot) (t : PinType) : Except LoadErr (List String) :=
  match t with
  | .direct => Except.ok root.direct
  | .recursive => Except.ok root.recursive
  | _ => Except.ok []

/-- The collaborators induced by a `World`: the datastore holds the pin-root
pointer iff `pinRoot` is present, and dereferencing it yields the stored
root, decoded by the spec-modelled codec. -/
def worldCollab (w : World) : Collab :=
  Collab.mk
    w.pinRoot.isSome
    (match w.pinRoot with
     | some _ => Except.ok "pin-root-cid"
     | none => Except.error .dsGetFailed)
    (fun _ =>
      match w.pinRoot with
      | some root => Except.ok root
      | none => Except.error .rootFetchFailed)
    specLoadSet

/-- `fetchCompleteDag(cid, {preload})` (src/unnamed/part_003 lines 323-328):
awaits `_walkDag` with only the cid and the preload flag — it registers no
`onCid` callback and contains no write to the pin sets or to the datastore,
so the world passes through unchanged alongside the walk outcome. -/
def fetchCompleteDag (dag : Dag) (fuel : Nat) (w : World) (cid : String) :
    Option (World × WalkOut) :=
  match walkDag dag fuel cid with
  | none => none
  | some out => some (w, out)

/-- A JS value passed to the static `checkPinType`: a string or any
non-string value. -/
inductive JsVal
  | str (s : String)
  | nonString
deriving DecidableEq, Repr

/-- An `err-code` error: a message plus a `.code` property. -/
structure ErrCode where
  message : String
  code : String
deriving DecidableEq, Repr

/-- `invalidPinTypeErr(type)` (src/unnamed/part_003 lines 29-32). -/
def invalidPinTypeErr (t : String) : ErrCode :=
  ErrCode.mk
    ("Invalid type \x27" ++ t ++ "\x27, must be one of \x7bdirect, indirect, recursive, all\x7d")
    "ERR_INVALID_PIN_TYPE"

/-- `Object.keys(PinTypes)` in insertion order (src/unnamed/part_003
lines 38-43). -/
def pinTypeKeys : List String :=
  ["direct", "recursive", "indirect", "all"]

/-- The static `checkPinType(type)` (src/unnamed/part_003 lines 335-339):
returns nothing for one of the four type strings, otherwise returns the
invalid-pin-type error (for a non-string value the template literal
interpolates its string conversion).  The function is static: it takes no
manager, datastore or DAG state at all. -/
def checkPinType : JsVal → Option ErrCode
  | .str s => if s ∈ pinTypeKeys then none else some (invalidPinTypeErr s)
  | .nonString => some (invalidPinTypeErr "[object Object]")

/-- The scenario DAG of spec §8.8: A links to B and C, B links to D (all
dag-pb). -/
def dagABCD : Dag := fun s =>
  if s = "A" then some (DagNode.mk .dagPB ["B", "C"] [])
  else if s = "B" then some (DagNode.mk .dagPB ["D"] [])
  else if s = "C" then some (DagNode.mk .dagPB [] [])
  else if s = "D" then some (DagNode.mk .dagPB [] [])
  else none

/-- The scenario manager of spec §8.8: pin set `{A}` recursive. -/
def pmA : PinManager :=
  PinManager.mk [] ["A"]

/-- A DAG where the root A links to B but B's fetch fails. -/
def dagAB : Dag := fun s =>
  if s = "A" then some (DagNode.mk .dagPB ["B"] []) else none

/-- A collaborator set with no pin-root key in the datastore. -/
def collabNoKey : Collab :=
  Collab.mk false (Except.error .dsGetFailed)
    (fun _ => Except.error .rootFetchFailed) specLoadSet

/-- A collaborator set whose pin-set decode fails (malformed pin-set node). -/
def collabBadDecode : Collab :=
  Collab.mk true (Except.ok "pin-root-cid")
    (fun _ => Except.ok (PinRoot.mk ["X"] ["Y"]))
    (fun _ _ => Except.error .decodeFailed)

end IpfsPin

namespace IpfsPin

/-- `y` is in `addToSet s x` iff it is in `s` or equals `x`. -/
theorem mem_addToSet {s : List String} {x y : String} :
    y ∈ addToSet s x ↔ y ∈ s ∨ y = x := by
  unfold addToSet
  by_cases h : x ∈ s
  · simp only [if_pos h]
    constructor
    · exact Or.inl
    · rintro (hy | rfl)
      · exact hy
      · exact h
  · simp [if_neg h]

/-- `addToSet` preserves duplicate-freedom. -/
theorem nodup_addToSet {s : List String} {x : String} (h : s.Nodup) :
    (addToSet s x).Nodup := by
  unfold addToSet
  by_cases hx : x ∈ s
  · simpa [hx]
  · simp [hx, List.nodup_append, h]

/-- Membership in a fold of `addToSet`. -/
theorem mem_foldl_addToSet (l : List String) (acc : List String) (y : String) :
    y ∈ l.foldl addToSet acc ↔ y ∈ acc ∨ y ∈ l := by
  induction l generalizing acc with
  | nil => simp
  | cons x xs ih =>
    simp only [List.foldl_cons, ih, mem_addToSet, List.mem_cons]
    tauto

/-- A fold of `addToSet` over a duplicate-free accumulator stays
duplicate-free. -/
theorem nodup_foldl_addToSet (l : List String) (acc : List String)
    (h : acc.Nodup) : (l.foldl addToSet acc).Nodup := by
  induction l generalizing acc with
  | nil => simpa
  | cons x xs ih => exact ih _ (nodup_addToSet h)

/-- Membership in the JS-set closure of a list is membership in the list. -/
theorem mem_toJsSet (l : List String) (y : String) :
    y ∈ toJsSet l ↔ y ∈ l := by
  unfold toJsSet
  rw [mem_foldl_addToSet]
  simp

/-- The JS-set closure of a list is duplicate-free. -/
theorem nodup_toJsSet (l : List String) : (toJsSet l).Nodup :=
  nodup_foldl_addToSet l [] List.nodup_nil

/-- Soundness of the walk: every visited CID is reachable from some CID of
the initial worklist. -/
theorem walkAux_sound (dag : Dag) :
    ∀ (fuel : Nat) (ws : List String) (w : WalkOut),
      walkAux dag fuel ws = some w →
      ∀ s ∈ w.visited, ∃ c ∈ ws, Reaches dag c s := by
  intro fuel
  induction fuel with
  | zero =>
    intro ws w hw s hs
    cases ws with
    | nil =>
      simp only [walkAux] at hw
      cases hw
      simp at hs
    | cons c rest => simp [walkAux] at hw
  | succ fuel ih =>
    intro ws w hw s hs
    cases ws with
    | nil =>
      simp only [walkAux] at hw
      cases hw
      simp at hs
    | cons c rest =>
      simp only [walkAux] at hw
      cases hdag : dag c with
      | none =>
        rw [hdag] at hw
        dsimp only at hw
        cases hrec : walkAux dag fuel rest with
        | none => rw [hrec] at hw; cases hw
        | some w0 =>
          rw [hrec] at hw
          cases hw
          obtain ⟨c0, hc0, hr⟩ := ih rest w0 hrec s hs
          exact ⟨c0, List.mem_cons_of_mem _ hc0, hr⟩
      | some n =>
        rw [hdag] at hw
        dsimp only at hw
        cases hrec : walkAux dag fuel (nodeChildren n ++ rest) with
        | none => rw [hrec] at hw; cases hw
        | some w0 =>
          rw [hrec] at hw
          cases hw
          rcases List.mem_cons.mp hs with rfl | hs0
          · exact ⟨s, List.mem_cons_self _ _, Reaches.refl s⟩
          · obtain ⟨c0, hc0, hr⟩ := ih _ w0 hrec s hs0
            rcases List.mem_append.mp hc0 with hchild | hrest
            · exact ⟨c, List.mem_cons_self _ _, Reaches.step hdag hchild hr⟩
            · exact ⟨c0, List.mem_cons_of_mem _ hrest, hr⟩

/-- Completeness of a failure-free walk: every CID reachable from the
initial worklist is visited. -/
theorem walkAux_complete (dag : Dag) :
    ∀ (fuel : Nat) (ws : List String) (w : WalkOut),
      walkAux dag fuel ws = some w → w.failed = [] →
      ∀ c ∈ ws, ∀ s, Reaches dag c s → s ∈ w.visited := by
  intro fuel
  induction fuel with
  | zero =>
    intro ws w hw hf c hc s hr
    cases ws with
    | nil => simp at hc
    | cons c0 rest => simp [walkAux] at hw
  | succ fuel ih =>
    intro ws w hw hf c hc s hr
    cases ws with
    | nil => simp at hc
    | cons c0 rest =>
      simp only [walkAux] at hw
      cases hdag : dag c0 with
      | none =>
        rw [hdag] at hw
        dsimp only at hw
        cases hrec : walkAux dag fuel rest with
        | none => rw [hrec] at hw; cases hw
        | some w0 =>
          rw [hrec] at hw
          cases hw
          simp at hf
      | some n =>
        rw [hdag] at hw
        dsimp only at hw
        cases hrec : walkAux dag fuel (nodeChildren n ++ rest) with
        | none => rw [hrec] at hw; cases hw
        | some w0 =>
          rw [hrec] at hw
          cases hw
          simp only at hf
          rcases List.mem_cons.mp hc with rfl | hc0
          · cases hr with
            | refl => exact List.mem_cons_self _ _
            | step hdag2 hchild hr2 =>
              rw [hdag] at hdag2
              cases hdag2
              exact List.mem_cons_of_mem _
                (ih _ w0 hrec hf _ (List.mem_append_left _ hchild) s hr2)
          · exact List.mem_cons_of_mem _
              (ih _ w0 hrec hf _ (List.mem_append_right _ hc0) s hr)

/-- Soundness lifted to the per-root walks of `getIndirectKeys`. -/
theorem visitRoots_sound (dag : Dag) (fuel : Nat) :
    ∀ (roots : List String) (w : WalkOut),
      visitRoots dag fuel roots = some w →
      ∀ s ∈ w.visited, ∃ r ∈ roots, Reaches dag r s := by
  intro roots
  induction roots with
  | nil =>
    intro w hw s hs
    simp only [visitRoots] at hw
    cases hw
    simp at hs
  | cons r rs ih =>
    intro w hw s hs
    simp only [visitRoots] at hw
    cases hwalk : walkDag dag fuel r with
    | none => rw [hwalk] at hw; cases hw
    | some w0 =>
      rw [hwalk] at hw
      cases hrest : visitRoots dag fuel rs with
      | none => rw [hrest] at hw; cases hw
      | some v =>
        rw [hrest] at hw
        cases hw
        rcases List.mem_append.mp hs with h0 | h1
        · obtain ⟨c, hc, hr⟩ := walkAux_sound dag fuel [r] w0 hwalk s h0
          simp only [List.mem_singleton] at hc
          exact ⟨r, List.mem_cons_self _ _, hc ▸ hr⟩
        · obtain ⟨r0, hr0, hr⟩ := ih v hrest s h1
          exact ⟨r0, List.mem_cons_of_mem _ hr0, hr⟩

/-- Completeness lifted to the per-root walks of `getIndirectKeys`. -/
theorem visitRoots_complete (dag : Dag) (fuel : Nat) :
    ∀ (roots : List String) (w : WalkOut),
      visitRoots dag fuel roots = some w → w.failed = [] →
      ∀ r ∈ roots, ∀ s, Reaches dag r s → s ∈ w.visited := by
  intro roots
  induction roots with
  | nil =>
    intro w hw hf r hr
    simp at hr
  | cons r0 rs ih =>
    intro w hw hf r hr s hreach
    simp only [visitRoots] at hw
    cases hwalk : walkDag dag fuel r0 with
    | none => rw [hwalk] at hw; cases hw
    | some w0 =>
      rw [hwalk] at hw
      cases hrest : visitRoots dag fuel rs with
      | none => rw [hrest] at hw; cases hw
      | some v =>
        rw [hrest] at hw
        cases hw
        simp only [List.append_eq_nil] at hf
        rcases List.mem_cons.mp hr with rfl | hr1
        · exact List.mem_append_left _
            (walkAux_complete dag fuel [r] w0 hwalk hf.1 r
              (List.mem_singleton_self r) s hreach)
        · exact List.mem_append_right _ (ih v hrest hf.2 r hr1 s hreach)

/-- C2: for every CID c, `isPinnedWithType(c, 'recursive')` reports pinned iff
c is a member of `recursivePins`, and `isPinnedWithType(c, 'direct')` reports
pinned iff c is a member of `directPins`; in each positive case the reason is
the fixed pin-type string and the key is the canonical string of c. -/
theorem c2_isPinnedWithType_recursive_direct (dag : Dag) (fuel : Nat)
    (pm : PinManager) (c : String) :
    ((isPinnedWithType dag fuel pm c .recursive).pinned = true ↔ c ∈ pm.recursivePins) ∧
    ((isPinnedWithType dag fuel pm c .direct).pinned = true ↔ c ∈ pm.directPins) ∧
    (c ∈ pm.recursivePins →
      isPinnedWithType dag fuel pm c .recursive
        = PinInfo.mk c true (some (.ofType .recursive))) ∧
    (c ∈ pm.directPins →
      isPinnedWithType dag fuel pm c .direct
        = PinInfo.mk c true (some (.ofType .direct))) := by
  by_cases hr : c ∈ pm.recursivePins <;> by_cases hd : c ∈ pm.directPins <;>
    simp [isPinnedWithType, hr, hd]

/-- Witness for C2 at concrete inputs: "Y" is recursively pinned, "X" is
directly pinned, and the queries report exactly that. -/
theorem c2_isPinnedWithType_recursive_direct_witness :
    (isPinnedWithType (fun _ => none) 0 (PinManager.mk ["X"] ["Y"]) "Y" .recursive
        = PinInfo.mk "Y" true (some (.ofType .recursive))) ∧
    (isPinnedWithType (fun _ => none) 0 (PinManager.mk ["X"] ["Y"]) "X" .direct
        = PinInfo.mk "X" true (some (.ofType .direct))) :=
  ⟨(c2_isPinnedWithType_recursive_direct (fun _ => none) 0
      (PinManager.mk ["X"] ["Y"]) "Y").2.2.1 (by decide),
   (c2_isPinnedWithType_recursive_direct (fun _ => none) 0
      (PinManager.mk ["X"] ["Y"]) "X").2.2.2 (by decide)⟩

/-- C3: for every CID c in `recursivePins`, a type-`all` query classifies c as
`recursive` and never `indirect`: the result is the same for every DAG and
every fuel, so no descendant search can influence it — the recursive
membership check short-circuits first. -/
theorem c3_recursive_preempts_indirect (dag : Dag) (fuel : Nat)
    (pm : PinManager) (c : String) (h : c ∈ pm.recursivePins) :
    isPinnedWithType dag fuel pm c .all
      = PinInfo.mk c true (some (.ofType .recursive)) := by
  simp [isPinnedWithType, h]

/-- Witness for C3: with `recursivePins = {A, B}` and B also reachable from
the other recursive root A (A links to B), querying B with type `all` still
reports `recursive`. -/
theorem c3_recursive_preempts_indirect_witness :
    "B" ∈ (PinManager.mk [] ["A", "B"]).recursivePins ∧
    isPinnedWithType
        (fun s => if s = "A" then some (DagNode.mk .dagPB ["B"] []) else none)
        9 (PinManager.mk [] ["A", "B"]) "B" .all
      = PinInfo.mk "B" true (some (.ofType .recursive)) :=
  ⟨by decide,
   c3_recursive_preempts_indirect
     (fun s => if s = "A" then some (DagNode.mk .dagPB ["B"] []) else none)
     9 (PinManager.mk [] ["A", "B"]) "B" (by decide)⟩

/-- C10: for every CID c in both `recursivePins` and `directPins`, a
type-`all` query reports reason `recursive`, not `direct`: the recursive
membership branch precedes the direct one. -/
theorem c10_recursive_over_direct (dag : Dag) (fuel : Nat)
    (pm : PinManager) (c : String)
    (h1 : c ∈ pm.recursivePins) (_h2 : c ∈ pm.directPins) :
    isPinnedWithType dag fuel pm c .all
      = PinInfo.mk c true (some (.ofType .recursive)) := by
  simp [isPinnedWithType, h1]

/-- Witness for C10: "A" pinned both directly and recursively; the `all`
query reports `recursive`. -/
theorem c10_recursive_over_direct_witness :
    "A" ∈ (PinManager.mk ["A"] ["A"]).recursivePins ∧
    "A" ∈ (PinManager.mk ["A"] ["A"]).directPins ∧
    isPinnedWithType (fun _ => none) 0 (PinManager.mk ["A"] ["A"]) "A" .all
      = PinInfo.mk "A" true (some (.ofType .recursive)) :=
  ⟨by decide, by decide,
   c10_recursive_over_direct (fun _ => none) 0 (PinManager.mk ["A"] ["A"]) "A"
     (by decide) (by decide)⟩

/-- C1 (code bug): in the spec scenario — `recursivePins = {A}`, DAG
`A -> [B, C]`, `B -> [D]` — the query `isPinnedWithType(D, 'all')` returns
`pinned: false` with no reason, although D is a descendant of the recursive
root A (`hasDescendant(A, D)` is true, as the second conjunct shows).  The
descendant scan at src/unnamed/part_003 line 269 calls
`hasDescendant(childKey, childCID)` with `childCID = new CID(childKey)`: it
passes each recursive root as its own candidate and never consults the
queried CID, contradicting the claim, the spec scenario
(`{pinned: true, reason: A}`), and the source's own comment "check each
recursive key to see if multihash is under it". -/
theorem c1_descendant_scan_ignores_query :
    isPinnedWithType dagABCD 16 pmA "D" .all = PinInfo.mk "D" false none ∧
    hasDescendant dagABCD 16 "A" "D" = true := by
  constructor
  · decide
  · decide

/-- C4: when every fetch of the per-root walks succeeds, `getIndirectKeys`
returns a duplicate-free list whose members are exactly the CIDs reachable
from some recursive root (via the per-codec link extraction) that are not
themselves recursive pins. -/
theorem c4_getIndirectKeys_reachable (dag : Dag) (fuel : Nat)
    (pm : PinManager) (w : WalkOut)
    (hw : visitRoots dag fuel pm.recursivePins = some w)
    (hf : w.failed = []) :
    ∃ keys, getIndirectKeys dag fuel pm = some keys ∧ keys.Nodup ∧
      ∀ s, s ∈ keys ↔
        ((∃ r ∈ pm.recursivePins, Reaches dag r s) ∧ s ∉ pm.recursivePins) := by
  refine ⟨toJsSet (w.visited.filter (fun s => decide (s ∉ pm.recursivePins))), ?_, ?_, ?_⟩
  · unfold getIndirectKeys
    rw [hw]
  · exact nodup_toJsSet _
  · intro s
    rw [mem_toJsSet, List.mem_filter, decide_eq_true_iff]
    constructor
    · rintro ⟨hv, hnot⟩
      exact ⟨visitRoots_sound dag fuel pm.recursivePins w hw s hv, hnot⟩
    · rintro ⟨⟨r, hr, hreach⟩, hnot⟩
      exact ⟨visitRoots_complete dag fuel pm.recursivePins w hw hf r hr s hreach, hnot⟩

/-- Witness for C4: the spec scenario `recursivePins = {A}`, `A -> [B, C]`,
`B -> [D]`: the walk succeeds with no failed fetch, `getIndirectKeys`
returns the set `{B, D, C}`, and the characterization of C4 holds there. -/
theorem c4_getIndirectKeys_reachable_witness :
    visitRoots dagABCD 16 pmA.recursivePins
        = some (WalkOut.mk ["A", "B", "D", "C"] []) ∧
    getIndirectKeys dagABCD 16 pmA = some ["B", "D", "C"] ∧
    ∃ keys, getIndirectKeys dagABCD 16 pmA = some keys ∧ keys.Nodup ∧
      ∀ s, s ∈ keys ↔
        ((∃ r ∈ pmA.recursivePins, Reaches dagABCD r s) ∧ s ∉ pmA.recursivePins) :=
  ⟨by decide, by decide,
   c4_getIndirectKeys_reachable dagABCD 16 pmA
     (WalkOut.mk ["A", "B", "D", "C"] []) (by decide) rfl⟩

/-- C5: for every pair of in-memory pin sets, `flushPins()` followed by
`load()` on a fresh manager bound to the same datastore and DAG service
(codec round-trip modelled from the spec) succeeds and restores
`directKeys()`/`recursiveKeys()` to sets equal to their pre-flush values. -/
theorem c5_flush_load_roundtrip (w : World) (s : String) :
    (loadRun (worldCollab (flushPins w)) (PinManager.mk [] [])).2 = none ∧
    (s ∈ directKeys (loadRun (worldCollab (flushPins w)) (PinManager.mk [] [])).1
      ↔ s ∈ directKeys w.pm) ∧
    (s ∈ recursiveKeys (loadRun (worldCollab (flushPins w)) (PinManager.mk [] [])).1
      ↔ s ∈ recursiveKeys w.pm) := by
  refine ⟨rfl, ?_, ?_⟩
  · show s ∈ toJsSet (directKeys w.pm) ↔ s ∈ directKeys w.pm
    exact mem_toJsSet _ s
  · show s ∈ toJsSet (recursiveKeys w.pm) ↔ s ∈ recursiveKeys w.pm
    exact mem_toJsSet _ s

/-- C6: `load()` is a no-op (no error, sets untouched) when the fixed
pin-root key is absent from the datastore; and whenever any step of `load()`
fails (datastore read, root fetch, or pin-set decode), the error propagates
to the caller while both pin sets remain exactly what they were — the
wholesale replacement runs only after both sub-set decodes succeed. -/
theorem c6_load_absent_noop_failure_atomic (c : Collab) (pm : PinManager) :
    (c.dsHas = false → loadRun c pm = (pm, none)) ∧
    (∀ e, load c pm = Except.error e → loadRun c pm = (pm, some e)) := by
  constructor
  · intro h
    unfold loadRun load
    rw [h]
    rfl
  · intro e he
    unfold loadRun
    rw [he]

/-- Witness for C6: a fresh datastore without the pin-root key leaves the
manager untouched with no error, and a manager whose pin-set decode fails
keeps its previous sets while the decode error surfaces. -/
theorem c6_load_absent_noop_failure_atomic_witness :
    loadRun collabNoKey (PinManager.mk ["X"] ["Y"]) = (PinManager.mk ["X"] ["Y"], none) ∧
    loadRun collabBadDecode (PinManager.mk ["X"] ["Y"])
      = (PinManager.mk ["X"] ["Y"], some .decodeFailed) :=
  ⟨(c6_load_absent_noop_failure_atomic collabNoKey (PinManager.mk ["X"] ["Y"])).1 rfl,
   (c6_load_absent_noop_failure_atomic collabBadDecode (PinManager.mk ["X"] ["Y"])).2
     .decodeFailed rfl⟩

/-- C7 (code bug): a failed node fetch does not abort the walk.  With the
DAG `A -> [B]` where B's fetch fails, `_walkDag` from A resolves normally
(`some` outcome: the queue drains and `onIdle` resolves; B's rejection is
seen only by the ignored promise returned by `queue.add`), with B recorded
as failed and its subtree skipped; consequently `getIndirectKeys` on
`recursivePins = {A}` also completes normally, silently returning a partial
(here empty) indirect set instead of propagating the error. -/
theorem c7_walk_failure_completes_normally :
    walkDag dagAB 4 "A" = some (WalkOut.mk ["A"] ["B"]) ∧
    getIndirectKeys dagAB 4 (PinManager.mk [] ["A"]) = some [] := by
  constructor
  · decide
  · decide

/-- C8: the static `checkPinType(t)` accepts t (returns nothing) iff t is
one of the four strings `direct`, `recursive`, `indirect`, `all`; every
other value yields an error whose code is `ERR_INVALID_PIN_TYPE` (the
function is static and takes no pin set, datastore, or DAG state). -/
theorem c8_checkPinType_valid_iff (v : JsVal) :
    (checkPinType v = none
      ↔ ∃ s, v = JsVal.str s ∧ s ∈ ["direct", "recursive", "indirect", "all"]) ∧
    (∀ e, checkPinType v = some e → e.code = "ERR_INVALID_PIN_TYPE") := by
  cases v with
  | str s =>
    constructor
    · by_cases h : s ∈ pinTypeKeys
      · simp only [checkPinType, if_pos h]
        simpa [pinTypeKeys] using h
      · simp only [checkPinType, if_neg h]
        constructor
        · intro hc
          cases hc
        · rintro ⟨s0, hs0, hmem⟩
          cases hs0
          exact absurd hmem h
    · intro e he
      by_cases h : s ∈ pinTypeKeys
      · simp [checkPinType, if_pos h] at he
      · simp only [checkPinType, if_neg h] at he
        cases he
        rfl
  | nonString =>
    constructor
    · constructor
      · intro hc
        cases hc
      · rintro ⟨s0, hs0, _⟩
        cases hs0
    · intro e he
      cases he
      rfl

/-- Witness for C8: the spec scenario with the unknown type string `bogus`:
the check rejects it with the invalid-pin-type error code, and each of the
four valid strings is accepted. -/
theorem c8_checkPinType_valid_iff_witness :
    checkPinType (JsVal.str "bogus") = some (invalidPinTypeErr "bogus") ∧
    (invalidPinTypeErr "bogus").code = "ERR_INVALID_PIN_TYPE" ∧
    checkPinType (JsVal.str "direct") = none ∧
    checkPinType (JsVal.str "recursive") = none ∧
    checkPinType (JsVal.str "indirect") = none ∧
    checkPinType (JsVal.str "all") = none :=
  ⟨by decide,
   (c8_checkPinType_valid_iff (JsVal.str "bogus")).2 (invalidPinTypeErr "bogus") (by decide),
   by decide, by decide, by decide, by decide⟩

/-- C9: `fetchCompleteDag(cid, {preload})` only walks and fetches: whenever
it resolves, the pin sets and the pin-root datastore entry are exactly what
they were before the call, and the walk performed is the plain `_walkDag`
from the given cid with no per-node callback registered. -/
theorem c9_fetchCompleteDag_frame (dag : Dag) (fuel : Nat) (w : World)
    (cid : String) (wOut : World) (out : WalkOut)
    (h : fetchCompleteDag dag fuel w cid = some (wOut, out)) :
    wOut.pm.directPins = w.pm.directPins ∧
    wOut.pm.recursivePins = w.pm.recursivePins ∧
    wOut.pinRoot = w.pinRoot ∧
    walkDag dag fuel cid = some out := by
  unfold fetchCompleteDag at h
  cases hwalk : walkDag dag fuel cid with
  | none => rw [hwalk] at h; cases h
  | some out0 =>
    rw [hwalk] at h
    cases h
    exact ⟨rfl, rfl, rfl, rfl⟩

/-- Witness for C9: on the concrete scenario world (pin set `{A}` recursive,
nothing flushed), fetching the complete DAG of A resolves and leaves the
pin sets and the datastore entry untouched. -/
theorem c9_fetchCompleteDag_frame_witness :
    fetchCompleteDag dagABCD 16 (World.mk pmA none) "A"
        = some (World.mk pmA none, WalkOut.mk ["A", "B", "D", "C"] []) ∧
    ((World.mk pmA none).pm.directPins = (World.mk pmA none).pm.directPins ∧
      (World.mk pmA none).pm.recursivePins = (World.mk pmA none).pm.recursivePins ∧
      (World.mk pmA none).pinRoot = (World.mk pmA none).pinRoot ∧
      walkDag dagABCD 16 "A" = some (WalkOut.mk ["A", "B", "D", "C"] [])) :=
  ⟨by decide,
   c9_fetchCompleteDag_frame dagABCD 16 (World.mk pmA none) "A"
     (World.mk pmA none) (WalkOut.mk ["A", "B", "D", "C"] []) (by decide)⟩

end IpfsPin
